import Mathlib

/-!
Verification of the snapshot-manager core of the playwright_local_agent_poc
repository: the indentation-based accessibility-snapshot parser
(src/libs/snapshot_manager/snapshot_parser.py), the context-model builder and
relevance trimmer (src/libs/snapshot_manager/transform_with_context.py), and
the node-based chunker (src/libs/snapshot_manager/nodebased_chunking.py).

The Python source is shallowly embedded: mutable dataclasses become immutable
structures, the mutable parse stack becomes explicit frame-passing, Python
object identity (id(node), used as a dict key) becomes a sequential node id
assigned at parse time (each Python Node is a fresh object, so identities are
exactly creation order), and Python dicts keyed by strings/pairs become
association lists in insertion order.  All definitions are executable.

String conventions: Python str is modelled by Lean String; character-level
work happens on String.data (List Char).  Python len(s) (code points) is
List.length of the data.  The regular expressions of the source are small and
anchored, and each is hand-compiled to the char-list scanner proved next to
it; Python \s is modelled by the six ASCII whitespace characters (the inputs
of interest are ASCII), and the \b of ROLE_RE reduces, for a maximal
[a-zA-Z_]+ run, to "next char is not a digit".
-/

namespace SnapshotMgr

/-! ## Character and string utilities -/

/-- Python regex class \s (ASCII range): space, tab, newline, carriage
return, vertical tab, form feed. -/
def pws (c : Char) : Bool :=
  c = ' ' || c = '\t' || c = '\n' || c = '\r' || c = '\x0b' || c = '\x0c'

/-- Python str.strip(): drop whitespace from both ends. -/
def stripChars (cs : List Char) : List Char :=
  ((cs.dropWhile pws).reverse.dropWhile pws).reverse

/-- A character at which Python str.splitlines() breaks a line. -/
def isLineBreak (c : Char) : Bool :=
  c = '\n' || c = '\r' || c = '\x0b' || c = '\x0c' || c = '\x1c' || c = '\x1d' ||
  c = '\x1e' || c = '\x85' || c = '\u2028' || c = '\u2029'

/-- Worker for pySplitlines; the accumulator holds the current line reversed. -/
def splitlinesAux : List Char → List Char → List (List Char)
  | [], acc => if acc.isEmpty then [] else [acc.reverse]
  | '\r' :: '\n' :: rest, acc => acc.reverse :: splitlinesAux rest []
  | c :: rest, acc =>
    if isLineBreak c then acc.reverse :: splitlinesAux rest []
    else splitlinesAux rest (c :: acc)

/-- Python str.splitlines(): split at line boundaries (\r\n counts once), no
trailing empty line for a trailing terminator. -/
def pySplitlines (cs : List Char) : List (List Char) :=
  splitlinesAux cs []

/-- Substring test: Python `pat in s`. -/
def containsSub (pat : List Char) : List Char → Bool
  | [] => pat.isEmpty
  | c :: rest => pat.isPrefixOf (c :: rest) || containsSub pat rest

/-- Python str[:k] on the model's strings. -/
def strTake (s : String) (k : Nat) : String :=
  String.mk (s.data.take k)

/-- Decimal rendering of a Nat, for the f-string id counters of the source. -/
def natToStr (k : Nat) : String := toString k

/-! ## Line grammar (the regexes of snapshot_parser.py lines 7-15)

LINE_RE = ^(?P<indent>\s*)-\s+(?P<body>.*)$ : both \s-runs are maximal (a
shorter run would have to continue with a whitespace character where the
pattern demands - or non-whitespace), so the line matches iff after the
leading whitespace run comes a dash followed by at least one whitespace
character; indent is the run's length and body the rest of the line.  The
source strips body immediately (snapshot_parser.py line 67). -/

/-- LINE_RE: some (indent, stripped body), or none when the line has no
dash bullet. -/
def matchLine (line : List Char) : Option (Int × List Char) :=
  match line.dropWhile pws with
  | '-' :: r2 =>
    if (r2.takeWhile pws).isEmpty then none
    else some (((line.takeWhile pws).length : Int), stripChars (r2.dropWhile pws))
  | _ => none

/-- URL_RE = ^/url:\s*(?P<url>\S+)\s*$ applied to the stripped body: after
the literal prefix and optional whitespace, one maximal non-whitespace token,
then nothing but whitespace. -/
def matchUrl (body : List Char) : Option (List Char) :=
  if body.take 5 = ['/', 'u', 'r', 'l', ':'] then
    let r := (body.drop 5).dropWhile pws
    let tok := r.takeWhile (fun c => !pws c)
    if tok.isEmpty then none
    else if ((r.dropWhile (fun c => !pws c)).dropWhile pws).isEmpty then some tok
    else none
  else none

/-- TEXT_KV_RE = ^text:\s*(?P<text>.*)$ applied to the stripped body:
the greedy \s* eats all whitespace after the colon. -/
def matchText (body : List Char) : Option (List Char) :=
  if body.take 5 = ['t', 'e', 'x', 't', ':'] then
    some ((body.drop 5).dropWhile pws)
  else none

/-- A character of the role class [a-zA-Z_]. -/
def isRoleChar (c : Char) : Bool :=
  ('a' ≤ c && c ≤ 'z') || ('A' ≤ c && c ≤ 'Z') || c = '_'

/-- ROLE_RE = ^(?P<role>[a-zA-Z_]+)\b : the maximal role-character prefix;
\b fails exactly when the next character is still a word character, which
for a maximal [a-zA-Z_] run means an (ASCII) digit. -/
def matchRole (body : List Char) : Option (List Char) :=
  let run := body.takeWhile isRoleChar
  if run.isEmpty then none
  else
    match body.drop run.length with
    | [] => some run
    | c :: _ => if c.isDigit then none else some run

/-- NAME_RE = "(?P<name>.*?)" searched: the text between the first quote and
the next quote after it; none when fewer than two quotes exist. -/
def matchName (body : List Char) : Option (List Char) :=
  match body.dropWhile (· ≠ '"') with
  | [] => none
  | _ :: rest =>
    let inner := rest.takeWhile (· ≠ '"')
    if (rest.drop inner.length).isEmpty then none else some inner

/-- REF_RE = \[ref=(?P<ref>e\d+)\] matched at the head of cs. -/
def matchRefAt (cs : List Char) : Option (List Char) :=
  match cs with
  | '[' :: 'r' :: 'e' :: 'f' :: '=' :: 'e' :: rest =>
    let ds := rest.takeWhile Char.isDigit
    if ds.isEmpty then none
    else
      match rest.drop ds.length with
      | ']' :: _ => some ('e' :: ds)
      | _ => none
  | _ => none

/-- REF_RE searched left to right over the body. -/
def searchRef : List Char → Option (List Char)
  | [] => none
  | c :: rest =>
    match matchRefAt (c :: rest) with
    | some r => some r
    | none => searchRef rest

/-- DISABLED_RE = \[disabled\] searched: a plain substring test. -/
def hasDisabledTag (body : List Char) : Bool :=
  containsSub ("[disabled]".data) body

/-! ## The Node model (snapshot_parser.py lines 38-50)

The dataclass Node carries raw, indent, role, name, ref, disabled, an attrs
dict (with optional "url" and "texts" keys) and children.  attrs is modelled
by an Option url plus a texts list (an absent "texts" key and an empty list
are indistinguishable to every consumer: both are falsy).  nid is the node's
identity: the source keys dicts by id(node), and every parsed node is a fresh
Python object, so identity is creation order; nid records it (0 for the
synthetic root, then 1, 2, ... in line order). -/

structure NodeData where
  raw : String
  indent : Int
  role : String
  name : Option String
  ref : Option String
  disabled : Bool
  url : Option String
  texts : List String
  nid : Nat
  deriving Repr, DecidableEq

inductive Node : Type where
  | mk (data : NodeData) (children : List Node) : Node

def Node.data : Node → NodeData
  | .mk d _ => d

def Node.children : Node → List Node
  | .mk _ cs => cs

/-- Truthiness of an optional string (Python: None and "" are falsy). -/
def strTruthy : Option String → Bool
  | none => false
  | some s => !s.data.isEmpty

/-! ## parse_snapshot (snapshot_parser.py lines 53-99)

The mutable stack of open nodes becomes a stack of frames; a frame is a node
whose children list is still growing.  Attribute lines (/url:, text:) mutate
the top frame.  In the source a node is appended to its parent's children
when it is created and then mutated in place; since a node's children only
grow while it is on the stack, attaching it to the parent when it is popped
(as done here) produces the same tree, children in the same order. -/

structure Frame where
  raw : String
  indent : Int
  role : String
  name : Option String
  ref : Option String
  disabled : Bool
  url : Option String
  texts : List String
  nid : Nat
  children : List Node

def closeFrame (f : Frame) : Node :=
  .mk ⟨f.raw, f.indent, f.role, f.name, f.ref, f.disabled, f.url, f.texts, f.nid⟩ f.children

def pushChild (f : Frame) (n : Node) : Frame :=
  { f with children := f.children ++ [n] }

/-- The stack-adjustment loop (lines 92-93): pop while the top's indentation
is ≥ the new line's.  The top frame is kept separate so the stack is never
empty; the (top, []) case leaves the root in place — in the source the root
has indentation -1 and a line's indentation is ≥ 0, so the root is never
popped and that branch is unreachable. -/
def popFrames (indent : Int) : Frame → List Frame → Frame × List Frame
  | top, [] => (top, [])
  | top, f :: fs =>
    if indent ≤ top.indent then popFrames indent (pushChild f (closeFrame top)) fs
    else (top, f :: fs)

structure ParseState where
  top : Frame
  rest : List Frame
  counter : Nat

def rootFrame : Frame :=
  { raw := "ROOT", indent := -1, role := "root", name := none, ref := none,
    disabled := false, url := none, texts := [], nid := 0, children := [] }

/-- One iteration of the line loop (snapshot_parser.py lines 61-97). -/
def processLine (st : ParseState) (line : List Char) : ParseState :=
  match matchLine line with
  | none => st
  | some (indent, body) =>
    match matchUrl body with
    | some u => { st with top := { st.top with url := some (String.mk u) } }
    | none =>
      match matchText body with
      | some t =>
        { st with top := { st.top with texts := st.top.texts ++ [String.mk t] } }
      | none =>
        { top := { raw := String.mk body, indent := indent,
                   role := match matchRole body with
                           | some r => String.mk r
                           | none => "unknown",
                   name := (matchName body).map String.mk,
                   ref := (searchRef body).map String.mk,
                   disabled := hasDisabledTag body, url := none, texts := [],
                   nid := st.counter, children := [] },
          rest := (popFrames indent st.top st.rest).1 ::
            (popFrames indent st.top st.rest).2,
          counter := st.counter + 1 }

/-- At end of input every still-open frame closes into its parent. -/
def closeAll : Frame → List Frame → Node
  | top, [] => closeFrame top
  | top, f :: fs => closeAll (pushChild f (closeFrame top)) fs

/-- parse_snapshot: parse the indentation-based snapshot into a tree. -/
def parse_snapshot (snapshot_text : String) : Node :=
  let st := (pySplitlines snapshot_text.data).foldl processLine ⟨rootFrame, [], 1⟩
  closeAll st.top st.rest

/-! ## Traversals (snapshot_parser.py lines 102-127)

iter_nodes is a stack-based depth-first walk that pushes each node's children
reversed and pops them in order: that is exactly a pre-order traversal, and
is embedded as the structurally recursive pre-order below.
ancestors_with_context walks the tree once recording, for every node, its
ancestor chain root..parent keyed by node identity. -/

mutual
def preorder : Node → List Node
  | .mk d cs => .mk d cs :: preorderList cs

def preorderList : List Node → List Node
  | [] => []
  | c :: cs => preorder c ++ preorderList cs
end

def iter_nodes (root : Node) : List Node := preorder root

mutual
def chainsNode (anc : List Node) : Node → List (Nat × List Node)
  | .mk d cs => (d.nid, anc) :: chainsList (anc ++ [.mk d cs]) cs

def chainsList (anc : List Node) : List Node → List (Nat × List Node)
  | [] => []
  | c :: cs => chainsNode anc c ++ chainsList anc cs
end

/-- ancestors_with_context: mapping node identity → ancestors (root..parent).
The source builds a Python dict; with distinct node identities the order of
insertion is irrelevant and an association list represents it. -/
def ancestors_with_context (root : Node) : List (Nat × List Node) :=
  chainsNode [] root

/-- Dict lookup chains[id(n)].  Every node of the tree has an entry, so the
default [] of the none branch is never consulted by the builder. -/
def chainLookup (chains : List (Nat × List Node)) (k : Nat) : List Node :=
  match chains.find? (fun e => e.1 == k) with
  | some e => e.2
  | none => []

/-! ## Role sets (snapshot_parser.py lines 18-34) -/

def INTERACTIVE_ROLES : List String :=
  ["button", "link", "combobox", "textbox", "searchbox", "checkbox", "radio",
   "option", "menuitem", "tab"]

def LANDMARK_ROLES : List String := ["main", "navigation", "contentinfo"]

def REPEATER_ITEM_ROLES : List String := ["row", "listitem", "group"]

/-! ## first_salient_text (snapshot_parser.py lines 130-148) -/

/-- The joined-and-stripped texts attribute of one node: " ".join(texts).strip(). -/
def joinedTexts (d : NodeData) : List Char :=
  stripChars (List.intercalate [' '] (d.texts.map String.data))

/-- The loop body of first_salient_text over the pre-order node list: first
heading/link name, else first non-empty joined texts (the emphasis branch of
lines 143-146 re-tests the same condition as the texts branch and can never
fire, mirrored here as the unreachable third test). -/
def salientAux (max_len : Nat) : List Node → Option String
  | [] => none
  | n :: rest =>
    let d := n.data
    if (d.role = "heading" || d.role = "link") && strTruthy d.name then
      some (strTake (d.name.getD "") max_len)
    else if !d.texts.isEmpty && !(joinedTexts d).isEmpty then
      some (strTake (String.mk (joinedTexts d)) max_len)
    else if d.role = "emphasis" && !d.texts.isEmpty && !(joinedTexts d).isEmpty then
      some (strTake (String.mk (joinedTexts d)) max_len)
    else salientAux max_len rest

/-- The fallback f-string of line 148: "<role>:<ref or no-ref>". -/
def salientFallback (container : Node) : String :=
  container.data.role ++ ":" ++
    (if strTruthy container.data.ref then container.data.ref.getD "" else "no-ref")

/-- first_salient_text: generic item_key lookup over the container subtree.
The source's default max_len is 80; callers here pass it explicitly. -/
def first_salient_text (container : Node) (max_len : Nat) : String :=
  match salientAux max_len (iter_nodes container) with
  | some s => s
  | none => salientFallback container

/-! ## Context model (transform_with_context.py lines 18-128)

build_context_model constructs plain dicts shaped like the pydantic models
Action/Item/Section; those shapes are the structures below (an Action's
"url" key is set only when the node has one, hence Option).  The source
keeps two aliased views of each item: the sections dict holds the item dicts
and item_map holds the same objects keyed by (section_id, id(container)),
and all mutation goes through item_map.  The embedding keeps the items in
one ordered map (ItemEntry list, insertion order, each entry remembering its
section) plus the ordered section headers, and materialises the aliased
nested dict at the end: each section lists, in insertion order, exactly the
entries registered under it. -/

structure Action where
  action_id : String
  role : String
  name : String
  ref : String
  disabled : Bool
  url : Option String
  deriving Repr, DecidableEq

structure Item where
  item_id : String
  item_key : String
  container_role : String
  actions : List Action
  deriving Repr, DecidableEq

structure Section where
  section_id : String
  landmark : String
  heading_path : List String
  items : List Item
  deriving Repr, DecidableEq

/-- The model dict returned by build_context_model; its "page" key is the
constant empty dict and carries no data. -/
structure ContextModel where
  sections : List Section
  deriving Repr, DecidableEq

/-- heading_path_for (lines 49-53): names of heading ancestors, last 3. -/
def heading_path_for (ancs : List Node) : List String :=
  let hp := (ancs.filter (fun a => a.data.role == "heading" && strTruthy a.data.name)).map
    (fun a => a.data.name.getD "")
  hp.drop (hp.length - 3)

/-- nearest_landmark (lines 56-60): scan ancestors nearest-first. -/
def nearest_landmark (ancs : List Node) : Option Node :=
  ancs.reverse.find? (fun a => LANDMARK_ROLES.contains a.data.role)

/-- nearest_item_container (lines 63-68): scan ancestors nearest-first. -/
def nearest_item_container (ancs : List Node) : Option Node :=
  ancs.reverse.find? (fun a => REPEATER_ITEM_ROLES.contains a.data.role)

/-- The section landmark (lines 86-87): nearest landmark's role or "unknown". -/
def landmark_of (ancs : List Node) : String :=
  match nearest_landmark ancs with
  | some lm => lm.data.role
  | none => "unknown"

/-- The f-string of line 90: s_<landmark>_<headings joined by _ or noheading>. -/
def section_id_of (landmark : String) (hp : List String) : String :=
  "s_" ++ landmark ++ "_" ++
    (if hp.isEmpty then "noheading"
     else String.mk (List.intercalate ['_'] (hp.map String.data)))

/-- Line 99: nearest_item_container(ancs) or (lm if lm else ancs[-1] if ancs
else root).  Node objects are always truthy in Python, so `or` selects the
first non-None. -/
def item_container_of (root : Node) (ancs : List Node) : Node :=
  match nearest_item_container ancs with
  | some c => c
  | none =>
    match nearest_landmark ancs with
    | some lm => lm
    | none =>
      match ancs.getLast? with
      | some a => a
      | none => root

/-- The builder's per-node section id, as computed at lines 85-90. -/
def node_sid (chains : List (Nat × List Node)) (n : Node) : String :=
  section_id_of (landmark_of (chainLookup chains n.data.nid))
    (heading_path_for (chainLookup chains n.data.nid))

/-- The builder's per-node item container, as computed at line 99. -/
def node_container (root : Node) (chains : List (Nat × List Node)) (n : Node) : Node :=
  item_container_of root (chainLookup chains n.data.nid)

/-- The filter of lines 80-83: interactive role and truthy ref. -/
def qualifies (n : Node) : Bool :=
  INTERACTIVE_ROLES.contains n.data.role && strTruthy n.data.ref

/-- A section header as first registered at lines 91-97. -/
structure SecHdr where
  section_id : String
  landmark : String
  heading_path : List String
  deriving Repr, DecidableEq

/-- One item_map entry: its key (sid, cnid), the item fields and its actions. -/
structure ItemEntry where
  sid : String
  cnid : Nat
  item_id : String
  item_key : String
  container_role : String
  actions : List Action
  deriving Repr, DecidableEq

structure BuildState where
  sections : List SecHdr
  itemMap : List ItemEntry
  deriving Repr, DecidableEq

/-- The Action dict of lines 113-121 for node n, inside item entry e
(action_id counts that item's existing actions). -/
def mkAction (e : ItemEntry) (n : Node) : Action :=
  { action_id := e.item_id ++ "/a" ++ natToStr e.actions.length,
    role := n.data.role,
    name := n.data.name.getD "",
    ref := n.data.ref.getD "",
    disabled := n.data.disabled,
    url := n.data.url }

/-- Line 123: item_map[item_key_id]["actions"].append(action), on the unique
entry with the given key. -/
def appendAction (sid : String) (cnid : Nat) (n : Node) : List ItemEntry → List ItemEntry
  | [] => []
  | e :: es =>
    if e.sid == sid && e.cnid == cnid then
      { e with actions := e.actions ++ [mkAction e n] } :: es
    else e :: appendAction sid cnid n es

/-- Lines 91-97: register the section on first sight, else leave the
section list unchanged. -/
def step_sections (secs : List SecHdr) (sid landmark : String) (hp : List String) :
    List SecHdr :=
  if secs.any (fun s => s.section_id == sid) then secs
  else secs ++ [⟨sid, landmark, hp⟩]

/-- Lines 102-111: register the item on first sight of its (section id,
container identity) key — its item_id numbered by the model-wide running
item count — else leave the item map unchanged. -/
def step_items (im : List ItemEntry) (sid : String) (cnid : Nat) (container : Node) :
    List ItemEntry :=
  if im.any (fun e => e.sid == sid && e.cnid == cnid) then im
  else im ++
    [⟨sid, cnid, sid ++ "/i" ++ natToStr im.length,
      first_salient_text container 80, container.data.role, []⟩]

/-- The loop body of build_context_model (lines 79-123) for one node. -/
def build_step (root : Node) (chains : List (Nat × List Node))
    (st : BuildState) (n : Node) : BuildState :=
  if qualifies n then
    ⟨step_sections st.sections (node_sid chains n)
        (landmark_of (chainLookup chains n.data.nid))
        (heading_path_for (chainLookup chains n.data.nid)),
      appendAction (node_sid chains n) (node_container root chains n).data.nid n
        (step_items st.itemMap (node_sid chains n)
          (node_container root chains n).data.nid (node_container root chains n))⟩
  else st

/-- Materialise the sections dict (lines 125-128): each section in insertion
order, holding its registered items in insertion order, holding their
actions in append order. -/
def assemble (st : BuildState) : List Section :=
  st.sections.map (fun h =>
    { section_id := h.section_id, landmark := h.landmark,
      heading_path := h.heading_path,
      items := (st.itemMap.filter (fun e => e.sid == h.section_id)).map (fun e =>
        { item_id := e.item_id, item_key := e.item_key,
          container_role := e.container_role, actions := e.actions }) })

/-- build_context_model (lines 71-128). -/
def build_context_model (snapshot_text : String) : ContextModel :=
  let root := parse_snapshot snapshot_text
  let chains := ancestors_with_context root
  ⟨assemble ((iter_nodes root).foldl (build_step root chains) ⟨[], []⟩)⟩

/-! ## Chunker (nodebased_chunking.py) -/

def CHUNK_ROOT_ROLES : List String :=
  ["main", "navigation", "contentinfo", "rowgroup", "list"]

/-- estimate_tokens (lines 6-8): max(1, len(text) // 4). -/
def estimate_tokens (text : String) : Nat :=
  max 1 (text.data.length / 4)

/-- One output line of serialize_subtree (lines 20-24). -/
def renderNodeLine (n : Node) (depth : Nat) : String :=
  let d := n.data
  let name_part := if strTruthy d.name then " \"" ++ d.name.getD "" ++ "\"" else ""
  let ref_part := if strTruthy d.ref then " [ref=" ++ d.ref.getD "" ++ "]" else ""
  let dis_part := if d.disabled then " [disabled]" else ""
  let url_part := match d.url with
    | some u => " /url=" ++ u
    | none => ""
  String.mk (List.replicate (2 * depth) ' ') ++ "- " ++ d.role ++ name_part ++
    ref_part ++ dis_part ++ url_part

mutual
def preorderDepth (depth : Nat) : Node → List (Node × Nat)
  | .mk d cs => (.mk d cs, depth) :: preorderDepthList (depth + 1) cs

def preorderDepthList (depth : Nat) : List Node → List (Node × Nat)
  | [] => []
  | c :: cs => preorderDepth depth c ++ preorderDepthList depth cs
end

/-- serialize_subtree (lines 11-27): the stack loop emits one line per node
in pre-order (children pushed reversed, popped in order) and stops once
max_lines lines exist, i.e. it renders the first max_lines pre-order nodes.
The source's default max_lines is 5000; callers here pass it explicitly. -/
def serialize_subtree (node : Node) (max_lines : Nat) : String :=
  String.mk (List.intercalate ['\n']
    (((preorderDepth 0 node).take max_lines).map
      (fun p => (renderNodeLine p.1 p.2).data)))

/-- The rank of line 37-40: landmarks first. -/
def chunk_rank (n : Node) : Nat :=
  if n.data.role = "main" || n.data.role = "navigation" || n.data.role = "contentinfo"
  then 0 else 1

/-- Stable insertion (ascending by rank): the element goes before the first
later element whose rank is ≥ its own never jumping an equal rank, which is
exactly Python's stable sorted(key=rank). -/
def insertRank {α : Type} (rank : α → Nat) (a : α) : List α → List α
  | [] => [a]
  | b :: bs => if rank a ≤ rank b then a :: b :: bs else b :: insertRank rank a bs

/-- Stable ascending sort by rank (Python sorted(roots, key=rank)). -/
def sortByRank {α : Type} (rank : α → Nat) (l : List α) : List α :=
  l.foldr (insertRank rank) []

/-- find_chunk_roots (lines 30-42).  `n is not root` is an identity test;
node identities are the nids (the root's nid is 0 and every parsed node gets
a fresh positive nid). -/
def find_chunk_roots (root : Node) : List Node :=
  sortByRank chunk_rank
    ((iter_nodes root).filter
      (fun n => CHUNK_ROOT_ROLES.contains n.data.role && !(n.data.nid == root.data.nid)))

structure Chunk where
  chunk_id : String
  root_role : String
  text : String
  deriving Repr, DecidableEq

/-- The inner loop of make_chunks (lines 56-74): one chunk per direct child
of an over-budget chunk root, hard-truncated when the child itself is over
budget; j enumerates the children. -/
def child_chunks (idx : Nat) (crRole : String) (max_tokens_per_chunk : Nat) :
    Nat → List Node → List Chunk
  | _, [] => []
  | j, child :: rest =>
    (if estimate_tokens (serialize_subtree child 5000) ≤ max_tokens_per_chunk then
      { chunk_id := "ch" ++ natToStr idx ++ "_" ++ natToStr j,
        root_role := crRole ++ ":" ++ child.data.role,
        text := serialize_subtree child 5000 }
    else
      { chunk_id := "ch" ++ natToStr idx ++ "_" ++ natToStr j ++ "_slice",
        root_role := crRole ++ ":" ++ child.data.role,
        text := strTake (serialize_subtree child 5000) (max_tokens_per_chunk * 4) }) ::
    child_chunks idx crRole max_tokens_per_chunk (j + 1) rest

/-- The outer loop of make_chunks (lines 50-74); idx enumerates chunk roots. -/
def root_chunks (max_tokens_per_chunk : Nat) : Nat → List Node → List Chunk
  | _, [] => []
  | idx, cr :: rest =>
    (if estimate_tokens (serialize_subtree cr 5000) ≤ max_tokens_per_chunk then
      [{ chunk_id := "ch" ++ natToStr idx, root_role := cr.data.role,
         text := serialize_subtree cr 5000 }]
    else
      child_chunks idx cr.data.role max_tokens_per_chunk 0 cr.children) ++
    root_chunks max_tokens_per_chunk (idx + 1) rest

/-- make_chunks (lines 45-75).  The source's default budget is 2000. -/
def make_chunks (snapshot_text : String) (max_tokens_per_chunk : Nat) : List Chunk :=
  root_chunks max_tokens_per_chunk 0 (find_chunk_roots (parse_snapshot snapshot_text))

/-! ## Relevance trimmer (transform_with_context.py lines 131-176) -/

/-- An ASCII character of the keyword class [a-zA-Z0-9]. -/
def isAlnumAscii (c : Char) : Bool :=
  ('a' ≤ c && c ≤ 'z') || ('A' ≤ c && c ≤ 'Z') || ('0' ≤ c && c ≤ '9')

/-- Worker for re.findall("[a-zA-Z0-9]+"): maximal alphanumeric runs; the
accumulator holds the current run reversed. -/
def alnumRunsAux : List Char → List Char → List (List Char)
  | [], acc => if acc.isEmpty then [] else [acc.reverse]
  | c :: rest, acc =>
    if isAlnumAscii c then alnumRunsAux rest (c :: acc)
    else if acc.isEmpty then alnumRunsAux rest []
    else acc.reverse :: alnumRunsAux rest []

def alnumRuns (cs : List Char) : List (List Char) :=
  alnumRunsAux cs []

/-- Line 143: the keyword set — lowercase alphanumeric runs of length > 2.
The Python set is modelled by the deduplicated list: score_text only counts
distinct keywords, so any duplicate-free enumeration represents it. -/
def keywords (task : String) : List (List Char) :=
  (((alnumRuns task.data).filter (fun w => 2 < w.length)).map
    (fun w => w.map Char.toLower)).dedup

/-- score_text (lines 145-147): how many keywords occur in the lowered text. -/
def score_text (kw : List (List Char)) (s : List Char) : Nat :=
  (kw.filter (fun k => containsSub k (s.map Char.toLower))).length

/-- Section score (line 152): keywords in " ".join(heading_path). -/
def sectionScore (kw : List (List Char)) (sec : Section) : Nat :=
  score_text kw (List.intercalate [' '] (sec.heading_path.map String.data))

/-- Item score (line 160): keywords in item_key. -/
def itemScore (kw : List (List Char)) (it : Item) : Nat :=
  score_text kw it.item_key.data

/-- Action score (line 169): keywords in name + " " + url (missing url = ""). -/
def actionScore (kw : List (List Char)) (a : Action) : Nat :=
  score_text kw (a.name.data ++ ' ' :: (a.url.getD "").data)

/-- Stable insertion (descending by score): the element goes before the
first later element whose score is ≤ its own. -/
def insertScore {α : Type} (score : α → Nat) (a : α) : List α → List α
  | [] => [a]
  | b :: bs => if score b ≤ score a then a :: b :: bs else b :: insertScore score a bs

/-- Stable descending sort by score.  Python's sorted(key=score,
reverse=True) is the unique stable descending sort; foldr-insertion with
insertScore is proved below to be weakly descending, a permutation, and
stable (score-classes keep their original order), so it is that sort. -/
def sortByScoreDesc {α : Type} (score : α → Nat) (l : List α) : List α :=
  l.foldr (insertScore score) []

/-- Lines 164-172: one trimmed item {**it, "actions": scored_acts}. -/
def trimItemF (kw : List (List Char)) (max_actions : Nat) (it : Item) : Item :=
  { it with actions := (sortByScoreDesc (actionScore kw) it.actions).take max_actions }

/-- Lines 156-174: one trimmed section {**sec, "items": new_items}. -/
def trimSecF (kw : List (List Char)) (max_items max_actions : Nat) (sec : Section) :
    Section :=
  { sec with items :=
      (((sortByScoreDesc (itemScore kw) sec.items).take max_items).map
        (trimItemF kw max_actions)) }

/-- The three sort-and-truncate passes of trim_for_llm (lines 149-176),
producing the new trimmed sections. -/
def trim_sections (sections : List Section) (task : String)
    (max_sections max_items max_actions : Nat) : List Section :=
  ((sortByScoreDesc (sectionScore (keywords task)) sections).take max_sections).map
    (trimSecF (keywords task) max_items max_actions)

/-- The dict returned by trim_for_llm: the task plus the trimmed sections. -/
structure TrimmedModel where
  task : String
  sections : List Section
  deriving Repr, DecidableEq

/-- trim_for_llm (lines 131-176) on a built context model.  The source's
defaults are max_sections=3, max_items=8, max_actions=8. -/
def trim_for_llm (model : ContextModel) (task : String)
    (max_sections max_items max_actions : Nat) : TrimmedModel :=
  ⟨task, trim_sections model.sections task max_sections max_items max_actions⟩

/-- trim_for_llm applied to a previous trim result: the source function only
reads model["sections"], which a trimmed model also carries. -/
def trim_for_llm_again (m : TrimmedModel) (task : String)
    (max_sections max_items max_actions : Nat) : TrimmedModel :=
  ⟨task, trim_sections m.sections task max_sections max_items max_actions⟩

/-! ## Observables used by the theorems -/

/- Child indentation is strictly greater than the parent's, on every edge. -/
mutual
def indentOk : Node → Bool
  | .mk d cs => childIndentsOk d.indent cs

def childIndentsOk (p : Int) : List Node → Bool
  | [] => true
  | c :: cs => (decide (p < c.data.indent)) && indentOk c && childIndentsOk p cs
end

/- Sibling indentations are weakly decreasing left to right, everywhere. -/
mutual
def sibDescOk : Node → Bool
  | .mk _ cs => sibChainOk cs && sibListOk cs

def sibChainOk : List Node → Bool
  | [] => true
  | [_] => true
  | a :: b :: cs => (decide (b.data.indent ≤ a.data.indent)) && sibChainOk (b :: cs)

def sibListOk : List Node → Bool
  | [] => true
  | c :: cs => sibDescOk c && sibListOk cs
end

/- All siblings share one indentation, everywhere (the property claimed of
the parser). -/
mutual
def sibEqOk : Node → Bool
  | .mk _ cs => sibEqChain cs && sibEqList cs

def sibEqChain : List Node → Bool
  | [] => true
  | [_] => true
  | a :: b :: cs => (a.data.indent == b.data.indent) && sibEqChain (b :: cs)

def sibEqList : List Node → Bool
  | [] => true
  | c :: cs => sibEqOk c && sibEqList cs
end

/-- The parse-stack invariant on a single frame: its accumulated children
sit strictly deeper than it, each child subtree already satisfies both
indentation invariants, and the children's indentations decrease weakly. -/
def frameChildrenOk (f : Frame) : Prop :=
  (∀ c ∈ f.children, f.indent < c.data.indent ∧ indentOk c = true ∧ sibDescOk c = true) ∧
  sibChainOk f.children = true

/-- The parse-stack invariant: every frame is internally good, frames are
strictly deeper towards the top, a frame sits no deeper than the last child
already attached to the frame below it, and the bottom frame is the root
(indentation -1). -/
def stackOk : Frame → List Frame → Prop
  | top, [] => frameChildrenOk top ∧ top.indent = -1
  | top, f :: fs =>
    frameChildrenOk top ∧ f.indent < top.indent ∧
      (∀ lc, f.children.getLast? = some lc → top.indent ≤ lc.data.indent) ∧
      stackOk f fs

/-- The observable data of an Action (everything except its running id). -/
def actionData (a : Action) : String × String × String × Bool × Option String :=
  (a.role, a.name, a.ref, a.disabled, a.url)

/-- The Action data a qualifying node contributes (lines 113-121). -/
def nodeActionData (n : Node) : String × String × String × Bool × Option String :=
  (n.data.role, n.data.name.getD "", n.data.ref.getD "", n.data.disabled, n.data.url)

/-- All actions of an item-map state, in entry order. -/
def flatActions (l : List ItemEntry) : List Action :=
  l.flatMap (fun e => e.actions)

/-- The builder's per-node item key (section id, container identity): the
dict key of item_map (line 102). -/
def node_key (root : Node) (chains : List (Nat × List Node)) (n : Node) : String × Nat :=
  (node_sid chains n, (node_container root chains n).data.nid)

/-- Per-node salient value of first_salient_text's loop: the heading/link
name if present (checked first), else the non-empty joined texts. -/
def node_salient (n : Node) : Option String :=
  if (n.data.role = "heading" || n.data.role = "link") && strTruthy n.data.name then
    some (n.data.name.getD "")
  else if !n.data.texts.isEmpty && !(joinedTexts n.data).isEmpty then
    some (String.mk (joinedTexts n.data))
  else none

/-- The invariant of the builder's fold: after processing a prefix of the
node list, (1) the actions accumulated in the item map are, as data, exactly
one per qualifying processed node; (2) the registered section ids are
distinct; (3) every item entry's section id is registered; (4) the item
keys (section id, container identity) are distinct; (5) a key is present
exactly when some qualifying processed node produced it. -/
def buildInv (root : Node) (chains : List (Nat × List Node))
    (st : BuildState) (processed : List Node) : Prop :=
  List.Perm ((flatActions st.itemMap).map actionData)
    ((processed.filter qualifies).map nodeActionData)
  ∧ (st.sections.map SecHdr.section_id).Nodup
  ∧ (∀ s ∈ st.itemMap.map (fun e => e.sid), s ∈ st.sections.map SecHdr.section_id)
  ∧ (st.itemMap.map (fun e => (e.sid, e.cnid))).Nodup
  ∧ ∀ pk : String × Nat, pk ∈ st.itemMap.map (fun e => (e.sid, e.cnid)) ↔
      pk ∈ (processed.filter qualifies).map (node_key root chains)

/-- Definition following the words of claim C2 for comparison with the code:
the claim's third fallback is "the most distant ancestor in its ancestor
chain (the top-level child of root)" — the chain is root..parent, so the
top-level child of root is the element after the root; the fourth is the
root itself. -/
def claimed_item_container (root : Node) (ancs : List Node) : Node :=
  match nearest_item_container ancs with
  | some c => c
  | none =>
    match nearest_landmark ancs with
    | some lm => lm
    | none =>
      match ancs.drop 1 with
      | a :: _ => a
      | [] => root

/-! ## Concrete inputs for the counterexamples and witnesses -/

/-- An interactive node whose ancestor chain has no repeating container and
no landmark: box > inner > button. -/
def exC2 : String := "- box\n  - inner\n    - button [ref=e1]"

/-- Two interactive nodes sharing one container row but landing in distinct
sections (a heading intervenes for the second). -/
def exC3 : String := "- row\n  - button [ref=e1]\n  - heading \"H\"\n    - button [ref=e2]"

/-- A childless chunk root whose one-line serialization exceeds a budget of
1 token. -/
def exC4 : String := "- main [ref=e1]"

/-- A container whose pre-order traversal meets a texts attribute (on the
paragraph) before the heading with a name. -/
def exC5 : String := "- group\n  - paragraph\n    - text: hello\n  - heading \"Title\""

/-- A container with no salient content whose role has 85 characters, so
the fallback string is longer than 80 characters. -/
def exC5b : String := "- " ++ String.mk (List.replicate 85 'a')

/-- Siblings of distinct indentation: x (indent 8) and y (indent 6) both
end up children of a (indent 2). -/
def exC9 : String := "- p\n  - a\n        - x\n      - y"

/-- A small snapshot with one section, one item and one action, used to
instantiate theorems with hypotheses at concrete inputs. -/
def exScenario : String := "- main\n  - heading \"Profile\"\n    - button \"Submit\" [ref=e1]"

end SnapshotMgr

/-!
Theorems.

Helper lemmas first (shared between claims), then one theorem per claim,
each carrying its claim id in the doc comment.
-/

namespace SnapshotMgr

/-! ## The stable descending sort -/

theorem insertScore_perm {α : Type} (s : α → Nat) (a : α) (l : List α) :
    List.Perm (insertScore s a l) (a :: l) := by
  induction l with
  | nil => exact List.Perm.refl _
  | cons b bs ih =>
    simp only [insertScore]
    split
    · exact List.Perm.refl _
    · exact (ih.cons b).trans (List.Perm.swap a b bs)

theorem sortByScoreDesc_perm {α : Type} (s : α → Nat) (l : List α) :
    List.Perm (sortByScoreDesc s l) l := by
  induction l with
  | nil => exact List.Perm.refl _
  | cons a l ih => exact (insertScore_perm s a _).trans (ih.cons a)

theorem insertScore_pairwise {α : Type} (s : α → Nat) (a : α) (l : List α)
    (h : l.Pairwise (fun x y => s y ≤ s x)) :
    (insertScore s a l).Pairwise (fun x y => s y ≤ s x) := by
  induction l with
  | nil => simp [insertScore]
  | cons b bs ih =>
    rcases List.pairwise_cons.mp h with ⟨hb, hbs⟩
    simp only [insertScore]
    by_cases hba : s b ≤ s a
    · rw [if_pos hba]
      refine List.pairwise_cons.mpr ⟨?_, h⟩
      intro y hy
      rcases List.mem_cons.mp hy with rfl | hy2
      · exact hba
      · exact le_trans (hb y hy2) hba
    · rw [if_neg hba]
      refine List.pairwise_cons.mpr ⟨?_, ih hbs⟩
      intro y hy
      have hy' : y ∈ a :: bs := (insertScore_perm s a bs).mem_iff.mp hy
      rcases List.mem_cons.mp hy' with rfl | hy2
      · exact le_of_not_le hba
      · exact hb y hy2

theorem insertScore_filter {α : Type} (s : α → Nat) (a : α) (l : List α) (k : Nat)
    (h : l.Pairwise (fun x y => s y ≤ s x)) :
    (insertScore s a l).filter (fun x => s x == k) =
      ((a :: l).filter (fun x => s x == k) : List α) := by
  induction l with
  | nil => rfl
  | cons b bs ih =>
    rcases List.pairwise_cons.mp h with ⟨hb, hbs⟩
    simp only [insertScore]
    by_cases hba : s b ≤ s a
    · rw [if_pos hba]
    · rw [if_neg hba]
      have hab : s a < s b := Nat.lt_of_not_le hba
      by_cases hak : s a = k
      · have hbk : ¬ (s b = k) := by omega
        simp [List.filter_cons, ih hbs, hak, hbk]
      · simp [List.filter_cons, ih hbs, hak]

theorem sortByScoreDesc_pairwise {α : Type} (s : α → Nat) (l : List α) :
    (sortByScoreDesc s l).Pairwise (fun x y => s y ≤ s x) := by
  induction l with
  | nil => simp [sortByScoreDesc]
  | cons a l ih => exact insertScore_pairwise s a _ ih

theorem sortByScoreDesc_filter {α : Type} (s : α → Nat) (l : List α) (k : Nat) :
    (sortByScoreDesc s l).filter (fun x => s x == k) = l.filter (fun x => s x == k) := by
  induction l with
  | nil => rfl
  | cons a l ih =>
    have h1 : (insertScore s a (sortByScoreDesc s l)).filter (fun x => s x == k)
        = (a :: sortByScoreDesc s l).filter (fun x => s x == k) :=
      insertScore_filter s a _ k (sortByScoreDesc_pairwise s l)
    show (insertScore s a (sortByScoreDesc s l)).filter (fun x => s x == k) = _
    rw [h1]
    simp [List.filter_cons, ih]

theorem sortByScoreDesc_of_pairwise {α : Type} (s : α → Nat) (l : List α)
    (h : l.Pairwise (fun x y => s y ≤ s x)) : sortByScoreDesc s l = l := by
  induction l with
  | nil => rfl
  | cons a l ih =>
    rcases List.pairwise_cons.mp h with ⟨ha, hl⟩
    show insertScore s a (sortByScoreDesc s l) = a :: l
    rw [ih hl]
    cases l with
    | nil => rfl
    | cons b bs => simp only [insertScore, if_pos (ha b (List.mem_cons_self b bs))]

end SnapshotMgr

namespace SnapshotMgr

/-! ## Trimmer lemmas -/

theorem trimItemF_actions_eq (kw : List (List Char)) (ma : Nat) (it : Item) :
    (trimItemF kw ma it).actions = (sortByScoreDesc (actionScore kw) it.actions).take ma := rfl

theorem trimItemF_actions_length (kw : List (List Char)) (ma : Nat) (it : Item) :
    (trimItemF kw ma it).actions.length = min ma it.actions.length := by
  rw [trimItemF_actions_eq, List.length_take, (sortByScoreDesc_perm _ _).length_eq]

theorem trimItemF_actions_pairwise (kw : List (List Char)) (ma : Nat) (it : Item) :
    (trimItemF kw ma it).actions.Pairwise
      (fun x y => actionScore kw y ≤ actionScore kw x) :=
  (sortByScoreDesc_pairwise _ _).sublist (List.take_sublist _ _)

theorem mem_trimItemF_actions {kw : List (List Char)} {ma : Nat} {it : Item}
    {a : Action} (h : a ∈ (trimItemF kw ma it).actions) : a ∈ it.actions :=
  (sortByScoreDesc_perm _ _).mem_iff.mp ((List.take_sublist _ _).subset h)

theorem trimSecF_items_eq (kw : List (List Char)) (mi ma : Nat) (sec : Section) :
    (trimSecF kw mi ma sec).items =
      ((sortByScoreDesc (itemScore kw) sec.items).take mi).map (trimItemF kw ma) := rfl

theorem trimSecF_items_length (kw : List (List Char)) (mi ma : Nat) (sec : Section) :
    (trimSecF kw mi ma sec).items.length = min mi sec.items.length := by
  rw [trimSecF_items_eq, List.length_map, List.length_take,
    (sortByScoreDesc_perm _ _).length_eq]

theorem trimSecF_items_pairwise (kw : List (List Char)) (mi ma : Nat) (sec : Section) :
    (trimSecF kw mi ma sec).items.Pairwise
      (fun x y => itemScore kw y ≤ itemScore kw x) := by
  rw [trimSecF_items_eq]
  exact List.pairwise_map.mpr
    ((sortByScoreDesc_pairwise _ _).sublist (List.take_sublist _ _))

theorem mem_trimSecF_items {kw : List (List Char)} {mi ma : Nat} {sec : Section}
    {it : Item} (h : it ∈ (trimSecF kw mi ma sec).items) :
    ∃ it₀ ∈ sec.items, it = trimItemF kw ma it₀ := by
  rw [trimSecF_items_eq] at h
  rcases List.mem_map.mp h with ⟨x, hx, rfl⟩
  exact ⟨x, (sortByScoreDesc_perm _ _).mem_iff.mp ((List.take_sublist _ _).subset hx), rfl⟩

theorem trim_sections_eq (secs : List Section) (task : String) (ms mi ma : Nat) :
    trim_sections secs task ms mi ma =
      ((sortByScoreDesc (sectionScore (keywords task)) secs).take ms).map
        (trimSecF (keywords task) mi ma) := rfl

theorem trim_sections_length (secs : List Section) (task : String) (ms mi ma : Nat) :
    (trim_sections secs task ms mi ma).length = min ms secs.length := by
  rw [trim_sections_eq, List.length_map, List.length_take,
    (sortByScoreDesc_perm _ _).length_eq]

theorem trim_sections_pairwise (secs : List Section) (task : String) (ms mi ma : Nat) :
    (trim_sections secs task ms mi ma).Pairwise
      (fun x y => sectionScore (keywords task) y ≤ sectionScore (keywords task) x) := by
  rw [trim_sections_eq]
  exact List.pairwise_map.mpr
    ((sortByScoreDesc_pairwise _ _).sublist (List.take_sublist _ _))

theorem mem_trim_sections {secs : List Section} {task : String} {ms mi ma : Nat}
    {sec : Section} (h : sec ∈ trim_sections secs task ms mi ma) :
    ∃ sec₀ ∈ secs, sec = trimSecF (keywords task) mi ma sec₀ := by
  rw [trim_sections_eq] at h
  rcases List.mem_map.mp h with ⟨x, hx, rfl⟩
  exact ⟨x, (sortByScoreDesc_perm _ _).mem_iff.mp ((List.take_sublist _ _).subset hx), rfl⟩

end SnapshotMgr

namespace SnapshotMgr

/-- C6: for every context model, task and non-negative limits, trim_for_llm
keeps at most max_sections sections (all of them when they fit, regardless
of score), each kept section at most max_items items and each kept item at
most max_actions actions (again all when they fit); at every level the kept
entries are in weakly descending keyword-score order, and the underlying
stable sort leaves every score class in its original relative order. -/
theorem claim_C6_trimmer_bounds_and_order (model : ContextModel) (task : String)
    (ms mi ma : Nat) :
    (trim_for_llm model task ms mi ma).sections.length = min ms model.sections.length
    ∧ (trim_for_llm model task ms mi ma).sections.Pairwise
        (fun x y => sectionScore (keywords task) y ≤ sectionScore (keywords task) x)
    ∧ (∀ k : Nat, (sortByScoreDesc (sectionScore (keywords task)) model.sections).filter
          (fun x => sectionScore (keywords task) x == k)
        = model.sections.filter (fun x => sectionScore (keywords task) x == k))
    ∧ ∀ sec ∈ (trim_for_llm model task ms mi ma).sections,
        ∃ sec₀ ∈ model.sections,
          sec.section_id = sec₀.section_id ∧ sec.heading_path = sec₀.heading_path
          ∧ sec.items.length = min mi sec₀.items.length
          ∧ sec.items.Pairwise
              (fun x y => itemScore (keywords task) y ≤ itemScore (keywords task) x)
          ∧ (∀ k : Nat, (sortByScoreDesc (itemScore (keywords task)) sec₀.items).filter
                (fun x => itemScore (keywords task) x == k)
              = sec₀.items.filter (fun x => itemScore (keywords task) x == k))
          ∧ ∀ it ∈ sec.items,
              ∃ it₀ ∈ sec₀.items,
                it.item_id = it₀.item_id ∧ it.item_key = it₀.item_key
                ∧ it.actions.length = min ma it₀.actions.length
                ∧ it.actions.Pairwise
                    (fun x y => actionScore (keywords task) y ≤ actionScore (keywords task) x)
                ∧ (∀ k : Nat,
                    (sortByScoreDesc (actionScore (keywords task)) it₀.actions).filter
                      (fun x => actionScore (keywords task) x == k)
                    = it₀.actions.filter (fun x => actionScore (keywords task) x == k))
                ∧ ∀ a ∈ it.actions, a ∈ it₀.actions := by
  refine ⟨trim_sections_length _ _ _ _ _, trim_sections_pairwise _ _ _ _ _,
    fun k => sortByScoreDesc_filter _ _ k, ?_⟩
  intro sec hsec
  rcases mem_trim_sections hsec with ⟨sec₀, hsec₀, rfl⟩
  refine ⟨sec₀, hsec₀, rfl, rfl, trimSecF_items_length _ _ _ _,
    trimSecF_items_pairwise _ _ _ _, fun k => sortByScoreDesc_filter _ _ k, ?_⟩
  intro it hit
  rcases mem_trimSecF_items hit with ⟨it₀, hit₀, rfl⟩
  exact ⟨it₀, hit₀, rfl, rfl, trimItemF_actions_length _ _ _,
    trimItemF_actions_pairwise _ _ _, fun k => sortByScoreDesc_filter _ _ k,
    fun a ha => mem_trimItemF_actions ha⟩

/-! ## Idempotence of the trimmer -/

theorem listMapId {α : Type} {f : α → α} {l : List α} (h : ∀ x ∈ l, f x = x) :
    l.map f = l := by
  induction l with
  | nil => rfl
  | cons a l ih =>
    rw [List.map_cons, h a (List.mem_cons_self a l),
      ih (fun x hx => h x (List.mem_cons_of_mem a hx))]

theorem trimItemF_idem (kw : List (List Char)) (ma ma' : Nat) (it : Item)
    (h : ma ≤ ma') : trimItemF kw ma' (trimItemF kw ma it) = trimItemF kw ma it := by
  have hsorted := trimItemF_actions_pairwise kw ma it
  have hlen : (trimItemF kw ma it).actions.length ≤ ma' := by
    rw [trimItemF_actions_length]
    exact le_trans (Nat.min_le_left _ _) h
  show { trimItemF kw ma it with
      actions := (sortByScoreDesc (actionScore kw) (trimItemF kw ma it).actions).take ma' }
    = trimItemF kw ma it
  rw [sortByScoreDesc_of_pairwise _ _ hsorted, List.take_of_length_le hlen]

theorem trimSecF_idem (kw : List (List Char)) (mi mi' ma ma' : Nat) (sec : Section)
    (h1 : mi ≤ mi') (h2 : ma ≤ ma') :
    trimSecF kw mi' ma' (trimSecF kw mi ma sec) = trimSecF kw mi ma sec := by
  have hsorted := trimSecF_items_pairwise kw mi ma sec
  have hlen : (trimSecF kw mi ma sec).items.length ≤ mi' := by
    rw [trimSecF_items_length]
    exact le_trans (Nat.min_le_left _ _) h1
  show { trimSecF kw mi ma sec with
      items := (((sortByScoreDesc (itemScore kw) (trimSecF kw mi ma sec).items).take mi').map
        (trimItemF kw ma')) } = trimSecF kw mi ma sec
  rw [sortByScoreDesc_of_pairwise _ _ hsorted, List.take_of_length_le hlen]
  have hmap : ((trimSecF kw mi ma sec).items).map (trimItemF kw ma')
      = (trimSecF kw mi ma sec).items := by
    refine listMapId ?_
    intro it hit
    rcases mem_trimSecF_items hit with ⟨it₀, qq, hq⟩
    subst hq
    exact trimItemF_idem kw ma ma' it₀ h2
  rw [hmap]

theorem trim_sections_idem (secs : List Section) (task : String)
    (ms mi ma ms' mi' ma' : Nat) (h1 : ms ≤ ms') (h2 : mi ≤ mi') (h3 : ma ≤ ma') :
    trim_sections (trim_sections secs task ms mi ma) task ms' mi' ma'
      = trim_sections secs task ms mi ma := by
  have hsorted := trim_sections_pairwise secs task ms mi ma
  have hlen : (trim_sections secs task ms mi ma).length ≤ ms' := by
    rw [trim_sections_length]
    exact le_trans (Nat.min_le_left _ _) h1
  rw [trim_sections_eq (trim_sections secs task ms mi ma),
    sortByScoreDesc_of_pairwise _ _ hsorted, List.take_of_length_le hlen,
    listMapId ?_]
  intro sec hsec
  rcases mem_trim_sections hsec with ⟨sec₀, qq, hq⟩
  subst hq
  exact trimSecF_idem _ mi mi' ma ma' sec₀ h2 h3

/-- C7: trimming is idempotent — re-applying trim_for_llm to its own output
with the same task and limits at least as large (the previous result's
sizes never exceed its limits) returns the same sections unchanged. -/
theorem claim_C7_trimmer_idempotent (model : ContextModel) (task : String)
    (ms mi ma ms' mi' ma' : Nat) (h1 : ms ≤ ms') (h2 : mi ≤ mi') (h3 : ma ≤ ma') :
    (trim_for_llm_again (trim_for_llm model task ms mi ma) task ms' mi' ma').sections
      = (trim_for_llm model task ms mi ma).sections :=
  trim_sections_idem model.sections task ms mi ma ms' mi' ma' h1 h2 h3

/-- Witness for C7 at a concrete model, task and limits. -/
theorem claim_C7_witness :
    (trim_for_llm_again
        (trim_for_llm (build_context_model exScenario) "Click Submit" 1 1 1)
        "Click Submit" 2 3 4).sections
      = (trim_for_llm (build_context_model exScenario) "Click Submit" 1 1 1).sections :=
  claim_C7_trimmer_idempotent (build_context_model exScenario) "Click Submit"
    1 1 1 2 3 4 (by decide) (by decide) (by decide)

end SnapshotMgr

namespace SnapshotMgr

/-! ## Chunker lemmas -/

theorem child_chunks_length (idx : Nat) (crRole : String) (m : Nat) :
    ∀ (j : Nat) (cs : List Node), (child_chunks idx crRole m j cs).length = cs.length := by
  intro j cs
  induction cs generalizing j with
  | nil => rfl
  | cons child rest ih =>
    simp only [child_chunks, List.length_cons]
    rw [ih (j + 1)]

theorem root_chunks_length (m : Nat) :
    ∀ (idx : Nat) (crs : List Node), (root_chunks m idx crs).length =
      ((crs.map (fun cr =>
        if estimate_tokens (serialize_subtree cr 5000) ≤ m then 1
        else cr.children.length)).sum) := by
  intro idx crs
  induction crs generalizing idx with
  | nil => rfl
  | cons cr rest ih =>
    simp only [root_chunks, List.length_append, List.map_cons, List.sum_cons]
    rw [ih (idx + 1)]
    by_cases h : estimate_tokens (serialize_subtree cr 5000) ≤ m
    · simp [h]
    · simp [h, child_chunks_length]

/-- C4 counterexample: the snapshot "- main [ref=e1]" has exactly one chunk
root (the childless main node), whose one-line serialization estimates 3
tokens; with a budget of 1 token make_chunks returns no chunk at all, so a
chunk root can contribute zero chunks. -/
theorem claim_C4_counterexample :
    make_chunks exC4 1 = [] ∧ (find_chunk_roots (parse_snapshot exC4)).length = 1 :=
  ⟨rfl, rfl⟩

/-- C4 (amended): a chunk root whose serialization fits the budget yields
exactly one chunk; an over-budget chunk root yields one chunk per direct
child (an over-budget child is hard-truncated, not dropped) — hence at
least one chunk when it has children, but zero when it is childless.
make_chunks itself never fails: the chunk count always obeys this formula. -/
theorem claim_C4_chunk_counts (t : String) (m : Nat) :
    (make_chunks t m).length =
      (((find_chunk_roots (parse_snapshot t)).map (fun cr =>
        if estimate_tokens (serialize_subtree cr 5000) ≤ m then 1
        else cr.children.length)).sum) :=
  root_chunks_length m 0 _

theorem estimate_strTake_le {s : String} {m : Nat} (hm : 1 ≤ m) :
    estimate_tokens (strTake s (m * 4)) ≤ m := by
  show max 1 ((s.data.take (m * 4)).length / 4) ≤ m
  have hlen : (s.data.take (m * 4)).length ≤ m * 4 := by
    rw [List.length_take]; exact Nat.min_le_left _ _
  have hdiv : (s.data.take (m * 4)).length / 4 ≤ m := by omega
  exact max_le hm hdiv

theorem child_chunks_bound (idx : Nat) (crRole : String) (m : Nat) (hm : 1 ≤ m) :
    ∀ (j : Nat) (cs : List Node) (c : Chunk),
      c ∈ child_chunks idx crRole m j cs → estimate_tokens c.text ≤ m := by
  intro j cs
  induction cs generalizing j with
  | nil => intro c h; cases h
  | cons child rest ih =>
    intro c h
    rcases List.mem_cons.mp h with rfl | htail
    · by_cases hfit : estimate_tokens (serialize_subtree child 5000) ≤ m
      · simpa [if_pos hfit] using hfit
      · simp only [if_neg hfit]
        exact estimate_strTake_le hm
    · exact ih (j + 1) c htail

theorem root_chunks_bound (m : Nat) (hm : 1 ≤ m) :
    ∀ (idx : Nat) (crs : List Node) (c : Chunk),
      c ∈ root_chunks m idx crs → estimate_tokens c.text ≤ m := by
  intro idx crs
  induction crs generalizing idx with
  | nil => intro c h; cases h
  | cons cr rest ih =>
    intro c h
    rcases List.mem_append.mp h with hhead | htail
    · by_cases hfit : estimate_tokens (serialize_subtree cr 5000) ≤ m
      · rw [if_pos hfit] at hhead
        rcases List.mem_singleton.mp hhead with rfl
        simpa using hfit
      · rw [if_neg hfit] at hhead
        exact child_chunks_bound idx cr.data.role m hm 0 cr.children c hhead
    · exact ih (idx + 1) c htail

/-- C10: for every input text and every budget of at least 1 token, every
chunk make_chunks returns — including the hard-truncated slice chunks —
satisfies estimate_tokens(text) ≤ budget. -/
theorem claim_C10_chunks_within_budget (t : String) (m : Nat) (hm : 1 ≤ m) :
    ∀ c ∈ make_chunks t m, estimate_tokens c.text ≤ m :=
  fun c hc => root_chunks_bound m hm 0 _ c hc

/-- Witness for C10 at a concrete snapshot and the source's default budget. -/
theorem claim_C10_witness :
    estimate_tokens ((make_chunks exScenario 2000).headD ⟨"", "", ""⟩).text ≤ 2000 :=
  claim_C10_chunks_within_budget exScenario 2000 (by decide) _ (by decide)

end SnapshotMgr

namespace SnapshotMgr

/-! ## first_salient_text -/

theorem salientAux_eq (m : Nat) : ∀ l : List Node,
    salientAux m l = ((l.filterMap node_salient).head?).map (fun s => strTake s m) := by
  intro l
  induction l with
  | nil => rfl
  | cons n rest ih =>
    cases hb1 : ((n.data.role = "heading" || n.data.role = "link") && strTruthy n.data.name) with
    | true => simp [salientAux, node_salient, hb1, List.filterMap_cons]
    | false =>
      cases hb2 : (!n.data.texts.isEmpty && !(joinedTexts n.data).isEmpty) with
      | true => simp [salientAux, node_salient, hb1, hb2, List.filterMap_cons]
      | false =>
        have hb3 : ((n.data.role = "emphasis" : Bool) && !n.data.texts.isEmpty &&
            !(joinedTexts n.data).isEmpty) = false := by
          cases hc : ((n.data.role = "emphasis" : Bool) && !n.data.texts.isEmpty &&
              !(joinedTexts n.data).isEmpty) with
          | false => rfl
          | true =>
            exfalso
            simp only [Bool.and_eq_true] at hc
            have hAB : (!n.data.texts.isEmpty && !(joinedTexts n.data).isEmpty) = true := by
              simp only [Bool.and_eq_true]
              exact ⟨hc.1.2, hc.2⟩
            rw [hb2] at hAB
            exact Bool.false_ne_true hAB
        simp [salientAux, node_salient, hb1, hb2, hb3, List.filterMap_cons, ih]

/-- C5 (amended): first_salient_text scans the container subtree in
pre-order and returns, for the FIRST node that carries either a non-empty
heading/link name (checked first on that node) or a non-empty joined texts
attribute, that string truncated to max_len — a later heading name does not
override an earlier node's texts; only when no node carries either does it
return the fallback "<role>:<ref-or-no-ref>", which is not truncated. -/
theorem claim_C5_salient_lookup (container : Node) (m : Nat) :
    first_salient_text container m =
      (match ((iter_nodes container).filterMap node_salient).head? with
       | some s => strTake s m
       | none => salientFallback container) := by
  unfold first_salient_text
  rw [salientAux_eq]
  cases ((iter_nodes container).filterMap node_salient).head? with
  | none => rfl
  | some s => rfl

/-- C5 counterexample: in the container of exC5, pre-order meets the
paragraph's texts attribute ("hello") before the heading named "Title", and
first_salient_text returns "hello", not the heading's name — refuting the
claimed unconditional priority of heading/link names over texts; and for
exC5b (an 85-character role, no salient content) the fallback string is 92
characters long, refuting the claimed truncation of the result to 80. -/
theorem claim_C5_counterexample :
    first_salient_text ((parse_snapshot exC5).children.headD (parse_snapshot exC5)) 80
      = "hello"
    ∧ (((iter_nodes ((parse_snapshot exC5).children.headD (parse_snapshot exC5))).filter
        (fun n => n.data.role == "heading" && strTruthy n.data.name)).map
          (fun n => n.data.name.getD "")) = ["Title"]
    ∧ ("hello" : String) ≠ "Title"
    ∧ 80 < (first_salient_text ((parse_snapshot exC5b).children.headD
        (parse_snapshot exC5b)) 80).data.length :=
  ⟨rfl, rfl, by decide, by decide⟩

end SnapshotMgr

namespace SnapshotMgr

/-! ## The item-container priority chain -/

theorem reverse_find_eq_filter_getLast {α : Type} (p : α → Bool) (l : List α) :
    l.reverse.find? p = (l.filter p).getLast? := by
  induction l with
  | nil => rfl
  | cons a l ih =>
    rw [List.reverse_cons, List.find?_append, ih, List.filter_cons]
    cases hfl : l.filter p with
    | nil =>
      cases hb : p a <;> simp [List.find?, hb]
    | cons b bs =>
      have hne : (b :: bs).getLast? ≠ none := by
        simp [List.getLast?_eq_none_iff]
      obtain ⟨x, hx⟩ := Option.ne_none_iff_exists'.mp hne
      rw [hx]
      simp only [Option.or]
      cases hb : p a
      · simp [hb, hx]
      · simp [hb, List.getLast?_cons_cons, hx]

/-- C2 (amended): the item container is the nearest ancestor with a
repeating-container role (the last matching element of the root..parent
chain); else the nearest landmark ancestor; else the NEAREST ancestor
altogether, i.e. the chain's last element, the node's immediate parent (not
the most distant ancestor); else — only for an empty chain — the root. -/
theorem claim_C2_container_priority (root : Node) (ancs : List Node) :
    item_container_of root ancs =
      (match (ancs.filter (fun a => REPEATER_ITEM_ROLES.contains a.data.role)).getLast? with
       | some c => c
       | none =>
         match (ancs.filter (fun a => LANDMARK_ROLES.contains a.data.role)).getLast? with
         | some lm => lm
         | none =>
           match ancs.getLast? with
           | some a => a
           | none => root) := by
  unfold item_container_of nearest_item_container nearest_landmark
  rw [reverse_find_eq_filter_getLast, reverse_find_eq_filter_getLast]

/-- C2 counterexample: in exC2 the button's ancestor chain is
[root, box, inner] with no repeating container and no landmark; the code
picks the immediate parent "inner", while the claim's priority chain picks
the most distant ancestor / top-level child of root, the "box" node (or,
on the literal reading, the root). -/
theorem claim_C2_counterexample :
    (((iter_nodes (parse_snapshot exC2)).filter qualifies).map (fun n =>
      ((node_container (parse_snapshot exC2)
          (ancestors_with_context (parse_snapshot exC2)) n).data.role,
       (claimed_item_container (parse_snapshot exC2)
          (chainLookup (ancestors_with_context (parse_snapshot exC2)) n.data.nid)).data.role)))
      = [("inner", "box")]
    ∧ ("inner" : String) ≠ "box" ∧ ("inner" : String) ≠ "root" :=
  ⟨rfl, by decide, by decide⟩

end SnapshotMgr

namespace SnapshotMgr

/-! ## Builder lemmas -/

theorem flatActions_cons (e : ItemEntry) (es : List ItemEntry) :
    flatActions (e :: es) = e.actions ++ flatActions es := by
  simp [flatActions]

theorem flatActions_append (l1 l2 : List ItemEntry) :
    flatActions (l1 ++ l2) = flatActions l1 ++ flatActions l2 := by
  simp [flatActions]

theorem key_any_iff (sid : String) (cnid : Nat) (l : List ItemEntry) :
    (l.any (fun e => e.sid == sid && e.cnid == cnid) = true) ↔
      (sid, cnid) ∈ l.map (fun e => (e.sid, e.cnid)) := by
  rw [List.any_eq_true]
  constructor
  · rintro ⟨e, he, hb⟩
    simp only [Bool.and_eq_true, beq_iff_eq] at hb
    exact List.mem_map.mpr ⟨e, he, by rw [hb.1, hb.2]⟩
  · intro h
    rcases List.mem_map.mp h with ⟨e, he, hpk⟩
    refine ⟨e, he, ?_⟩
    simp only [Prod.mk.injEq] at hpk
    simp only [Bool.and_eq_true, beq_iff_eq]
    exact ⟨hpk.1, hpk.2⟩

theorem sid_any_iff (sid : String) (l : List SecHdr) :
    (l.any (fun s => s.section_id == sid) = true) ↔ sid ∈ l.map SecHdr.section_id := by
  rw [List.any_eq_true]
  constructor
  · rintro ⟨s, hs, hb⟩
    exact List.mem_map.mpr ⟨s, hs, beq_iff_eq.mp hb⟩
  · intro h
    rcases List.mem_map.mp h with ⟨s, hs, hpk⟩
    exact ⟨s, hs, beq_iff_eq.mpr hpk⟩

theorem appendAction_keys (sid : String) (cnid : Nat) (n : Node) :
    ∀ l : List ItemEntry,
      (appendAction sid cnid n l).map (fun e => (e.sid, e.cnid)) =
        l.map (fun e => (e.sid, e.cnid)) := by
  intro l
  induction l with
  | nil => rfl
  | cons e es ih =>
    simp only [appendAction]
    split
    · rfl
    · simp only [List.map_cons, ih]

theorem appendAction_sids (sid : String) (cnid : Nat) (n : Node) (l : List ItemEntry) :
    (appendAction sid cnid n l).map (fun e => e.sid) = l.map (fun e => e.sid) := by
  have h := congrArg (List.map Prod.fst) (appendAction_keys sid cnid n l)
  simpa [List.map_map] using h

theorem perm_append_singleton_mid {α : Type} (xs ys : List α) (d : α) :
    List.Perm ((xs ++ [d]) ++ ys) ((xs ++ ys) ++ [d]) := by
  rw [List.append_assoc, List.append_assoc]
  exact List.Perm.append_left xs List.perm_append_comm

theorem appendAction_flat (sid : String) (cnid : Nat) (n : Node) :
    ∀ l : List ItemEntry, (sid, cnid) ∈ l.map (fun e => (e.sid, e.cnid)) →
      List.Perm ((flatActions (appendAction sid cnid n l)).map actionData)
        ((flatActions l).map actionData ++ [nodeActionData n]) := by
  intro l
  induction l with
  | nil => intro h; cases h
  | cons e es ih =>
    intro h
    simp only [appendAction]
    by_cases hm : (e.sid == sid && e.cnid == cnid) = true
    · rw [if_pos hm]
      rw [flatActions_cons, flatActions_cons]
      show List.Perm (((e.actions ++ [mkAction e n]) ++ flatActions es).map actionData) _
      rw [List.map_append, List.map_append, List.map_append]
      exact perm_append_singleton_mid _ _ _
    · rw [if_neg hm]
      have hmem : (sid, cnid) ∈ es.map (fun e => (e.sid, e.cnid)) := by
        rcases List.mem_cons.mp h with heq | hmem
        · exfalso
          apply hm
          simp only [Prod.mk.injEq] at heq
          simp only [Bool.and_eq_true, beq_iff_eq]
          exact ⟨heq.1.symm, heq.2.symm⟩
        · exact hmem
      rw [flatActions_cons, flatActions_cons, List.map_append, List.map_append,
        List.append_assoc]
      exact List.Perm.append_left _ (ih hmem)

end SnapshotMgr

namespace SnapshotMgr

theorem build_step_inv (root : Node) (chains : List (Nat × List Node))
    (st : BuildState) (processed : List Node) (n : Node)
    (h : buildInv root chains st processed) :
    buildInv root chains (build_step root chains st n) (processed ++ [n]) := by
  obtain ⟨hperm, hsec, hcov, hkeyN, hkeyM⟩ := h
  by_cases hq : qualifies n = true
  · -- the node is interactive with a truthy ref
    have hfilter : (processed ++ [n]).filter qualifies =
        processed.filter qualifies ++ [n] := by
      rw [List.filter_append]
      simp [List.filter, hq]
    have hstep : build_step root chains st n =
        ⟨step_sections st.sections (node_sid chains n)
            (landmark_of (chainLookup chains n.data.nid))
            (heading_path_for (chainLookup chains n.data.nid)),
          appendAction (node_sid chains n) (node_container root chains n).data.nid n
            (step_items st.itemMap (node_sid chains n)
              (node_container root chains n).data.nid (node_container root chains n))⟩ := by
      simp [build_step, hq]
    rw [hstep]
    -- facts about the new section list
    have hsecFacts :
        ((step_sections st.sections (node_sid chains n)
            (landmark_of (chainLookup chains n.data.nid))
            (heading_path_for (chainLookup chains n.data.nid))).map SecHdr.section_id).Nodup
        ∧ (∀ s, s ∈ st.sections.map SecHdr.section_id →
            s ∈ (step_sections st.sections (node_sid chains n)
              (landmark_of (chainLookup chains n.data.nid))
              (heading_path_for (chainLookup chains n.data.nid))).map SecHdr.section_id)
        ∧ node_sid chains n ∈ (step_sections st.sections (node_sid chains n)
            (landmark_of (chainLookup chains n.data.nid))
            (heading_path_for (chainLookup chains n.data.nid))).map SecHdr.section_id := by
      by_cases hs : st.sections.any (fun s => s.section_id == node_sid chains n) = true
      · rw [step_sections, if_pos hs]
        exact ⟨hsec, fun s hh => hh, (sid_any_iff _ _).mp hs⟩
      · rw [step_sections, if_neg hs]
        have hnot : node_sid chains n ∉ st.sections.map SecHdr.section_id :=
          fun hmm => hs ((sid_any_iff _ _).mpr hmm)
        refine ⟨?_, ?_, ?_⟩
        · rw [List.map_append]
          simp [List.nodup_append, hsec, hnot]
        · intro s hh
          rw [List.map_append]
          exact List.mem_append_left _ hh
        · rw [List.map_append]
          exact List.mem_append_right _ (by simp)
    obtain ⟨hsecN', hsecMono, hsidIn⟩ := hsecFacts
    -- facts about the new item map before appending the action
    by_cases hk : st.itemMap.any (fun e =>
        e.sid == node_sid chains n &&
        e.cnid == (node_container root chains n).data.nid) = true
    · -- the key is already registered: step_items leaves the map unchanged
      have hitems : step_items st.itemMap (node_sid chains n)
          (node_container root chains n).data.nid (node_container root chains n)
          = st.itemMap := by
        rw [step_items, if_pos hk]
      rw [hitems]
      have hkmem := (key_any_iff _ _ _).mp hk
      refine ⟨?_, hsecN', ?_, ?_, ?_⟩
      · rw [hfilter, List.map_append]
        exact (appendAction_flat _ _ n st.itemMap hkmem).trans
          (hperm.append_right [nodeActionData n])
      · intro s hh
        rw [appendAction_sids] at hh
        exact hsecMono s (hcov s hh)
      · rw [appendAction_keys]
        exact hkeyN
      · intro pk
        rw [appendAction_keys, hfilter, List.map_append, List.mem_append]
        constructor
        · intro hp
          exact Or.inl ((hkeyM pk).mp hp)
        · intro hp
          rcases hp with hp | hp
          · exact (hkeyM pk).mpr hp
          · rcases List.mem_singleton.mp hp with rfl
            exact hkmem
    · -- first sight of the key: a fresh empty item is appended first
      obtain ⟨newE, hE1, hE2, hE3, hitems⟩ :
          ∃ newE : ItemEntry, newE.sid = node_sid chains n
            ∧ newE.cnid = (node_container root chains n).data.nid
            ∧ newE.actions = []
            ∧ step_items st.itemMap (node_sid chains n)
                (node_container root chains n).data.nid (node_container root chains n)
              = st.itemMap ++ [newE] :=
        ⟨⟨node_sid chains n, (node_container root chains n).data.nid,
          node_sid chains n ++ "/i" ++ natToStr st.itemMap.length,
          first_salient_text (node_container root chains n) 80,
          (node_container root chains n).data.role, []⟩,
         rfl, rfl, rfl, by rw [step_items, if_neg hk]⟩
      rw [hitems]
      have hknot : (node_sid chains n, (node_container root chains n).data.nid)
          ∉ st.itemMap.map (fun e => (e.sid, e.cnid)) :=
        fun hmm => hk ((key_any_iff _ _ _).mpr hmm)
      have hkmem : (node_sid chains n, (node_container root chains n).data.nid)
          ∈ (st.itemMap ++ [newE]).map (fun e => (e.sid, e.cnid)) := by
        rw [List.map_append]
        refine List.mem_append_right _ ?_
        simp [hE1, hE2]
      have hflat : flatActions (st.itemMap ++ [newE]) = flatActions st.itemMap := by
        rw [flatActions_append]
        simp [flatActions, hE3]
      refine ⟨?_, hsecN', ?_, ?_, ?_⟩
      · rw [hfilter, List.map_append]
        refine (appendAction_flat _ _ n _ hkmem).trans ?_
        rw [hflat]
        exact hperm.append_right [nodeActionData n]
      · intro s hh
        rw [appendAction_sids, List.map_append] at hh
        rcases List.mem_append.mp hh with hh | hh
        · exact hsecMono s (hcov s hh)
        · have hs2 : s = newE.sid := by simpa using hh
          rw [hs2, hE1]
          exact hsidIn
      · rw [appendAction_keys, List.map_append]
        simp only [List.nodup_append]
        refine ⟨hkeyN, by simp, ?_⟩
        intro pk hp
        simp only [List.map_cons, List.map_nil, List.mem_singleton]
        intro hpk
        apply hknot
        rw [← hE1, ← hE2, ← hpk]
        exact hp
      · intro pk
        rw [appendAction_keys, hfilter, List.map_append, List.map_append]
        have hsing : (List.map (fun e => (e.sid, e.cnid)) [newE])
            = List.map (node_key root chains) [n] := by
          simp [hE1, hE2, node_key]
        rw [hsing, List.mem_append, List.mem_append]
        constructor
        · intro hp
          rcases hp with hp | hp
          · exact Or.inl ((hkeyM pk).mp hp)
          · exact Or.inr hp
        · intro hp
          rcases hp with hp | hp
          · exact Or.inl ((hkeyM pk).mpr hp)
          · exact Or.inr hp
  · -- non-qualifying node: nothing changes
    have hstep : build_step root chains st n = st := by
      simp [build_step, hq]
    have hfilter : (processed ++ [n]).filter qualifies = processed.filter qualifies := by
      rw [List.filter_append]
      simp [List.filter, hq]
    rw [hstep]
    refine ⟨?_, hsec, hcov, hkeyN, ?_⟩
    · rw [hfilter]
      exact hperm
    · intro pk
      rw [hfilter]
      exact hkeyM pk

end SnapshotMgr

namespace SnapshotMgr

theorem build_fold_inv (root : Node) (chains : List (Nat × List Node)) :
    ∀ (ns : List Node) (st : BuildState) (processed : List Node),
      buildInv root chains st processed →
      buildInv root chains (ns.foldl (build_step root chains) st) (processed ++ ns) := by
  intro ns
  induction ns with
  | nil => intro st p h; simpa using h
  | cons n rest ih =>
    intro st p h
    have h2 := ih (build_step root chains st n) (p ++ [n]) (build_step_inv root chains st p n h)
    rw [List.foldl_cons]
    have : p ++ [n] ++ rest = p ++ n :: rest := by
      rw [List.append_assoc, List.singleton_append]
    rw [this] at h2
    exact h2

theorem build_inv_initial (root : Node) (chains : List (Nat × List Node)) :
    buildInv root chains ⟨[], []⟩ [] := by
  refine ⟨by simp [flatActions], by simp, by simp, by simp, ?_⟩
  intro pk
  simp [flatActions]

theorem build_inv_final (t : String) :
    buildInv (parse_snapshot t) (ancestors_with_context (parse_snapshot t))
      ((iter_nodes (parse_snapshot t)).foldl
        (build_step (parse_snapshot t) (ancestors_with_context (parse_snapshot t))) ⟨[], []⟩)
      (iter_nodes (parse_snapshot t)) := by
  have h := build_fold_inv (parse_snapshot t) (ancestors_with_context (parse_snapshot t))
    (iter_nodes (parse_snapshot t)) ⟨[], []⟩ []
    (build_inv_initial (parse_snapshot t) (ancestors_with_context (parse_snapshot t)))
  simpa using h

/-! ## Partitioning the item map by section -/

theorem flatMapCongr {α β : Type} {f g : α → List β} :
    ∀ {l : List α}, (∀ x ∈ l, f x = g x) → l.flatMap f = l.flatMap g := by
  intro l
  induction l with
  | nil => intro _; rfl
  | cons a l ih =>
    intro h
    rw [List.flatMap_cons, List.flatMap_cons, h a (List.mem_cons_self a l),
      ih (fun x hx => h x (List.mem_cons_of_mem a hx))]

theorem partition_perm :
    ∀ (keys : List String) (l : List ItemEntry), keys.Nodup →
      (∀ e ∈ l, e.sid ∈ keys) →
      List.Perm (keys.flatMap (fun k => l.filter (fun e => e.sid == k))) l := by
  intro keys
  induction keys with
  | nil =>
    intro l _ hcov
    cases l with
    | nil => exact List.Perm.refl _
    | cons e es => exact absurd (hcov e (List.mem_cons_self e es)) (List.not_mem_nil _)
  | cons k ks ih =>
    intro l hnd hcov
    rcases List.nodup_cons.mp hnd with ⟨hk, hks⟩
    rw [List.flatMap_cons]
    have hcong : ∀ k' ∈ ks, l.filter (fun e => e.sid == k')
        = (l.filter (fun e => !(e.sid == k))).filter (fun e => e.sid == k') := by
      intro k' hk'
      rw [List.filter_filter]
      apply List.filter_congr
      intro e _
      by_cases he : e.sid = k'
      · have hne : ¬ (e.sid = k) := by
          intro hek
          exact hk (hek ▸ he ▸ hk')
        have hkk : ¬ (k' = k) := fun hkv => hk (hkv ▸ hk')
        simp [he, hne, hkk]
      · simp [he]
    rw [flatMapCongr hcong]
    have hIH := ih (l.filter (fun e => !(e.sid == k))) hks ?side
    case side =>
      intro e he
      rcases List.mem_filter.mp he with ⟨hel, hneq⟩
      have := hcov e hel
      rcases List.mem_cons.mp this with heq | hmem
      · exfalso
        rw [heq] at hneq
        simp at hneq
      · exact hmem
    exact (List.Perm.append_left _ hIH).trans
      (List.filter_append_perm (fun e => e.sid == k) l)

end SnapshotMgr

namespace SnapshotMgr

/-! ## Flattening the assembled model -/

theorem assemble_ids (st : BuildState) :
    (assemble st).map Section.section_id = st.sections.map SecHdr.section_id := by
  simp [assemble, List.map_map, Function.comp]

theorem assemble_items_flat (st : BuildState) :
    (assemble st).flatMap Section.items =
      ((st.sections.map SecHdr.section_id).flatMap
        (fun k => st.itemMap.filter (fun e => e.sid == k))).map (fun e =>
          ({ item_id := e.item_id, item_key := e.item_key,
             container_role := e.container_role, actions := e.actions } : Item)) := by
  show (st.sections.map _).flatMap Section.items = _
  rw [List.flatMap_map, List.flatMap_map, List.map_flatMap]

theorem assemble_actions_flat (st : BuildState) :
    ((assemble st).flatMap Section.items).flatMap Item.actions =
      ((st.sections.map SecHdr.section_id).flatMap
        (fun k => st.itemMap.filter (fun e => e.sid == k))).flatMap
          (fun e => e.actions) := by
  rw [assemble_items_flat, List.flatMap_map]

end SnapshotMgr

namespace SnapshotMgr

/-- C1: for every input snapshot text, the actions of the context model —
across all sections and items — are, as recorded data, exactly one Action
per parsed node whose role is interactive and whose ref is non-empty (in
particular, nodes without a ref or with a non-interactive role produce no
Action, and no qualifying node is recorded twice or dropped); and the
model's sections are pairwise distinct by section_id, so each action
belongs to exactly one item of exactly one section. -/
theorem claim_C1_one_action_per_interactive_node (t : String) :
    List.Perm
      ((((build_context_model t).sections.flatMap Section.items).flatMap
        Item.actions).map actionData)
      (((iter_nodes (parse_snapshot t)).filter qualifies).map nodeActionData)
    ∧ ((build_context_model t).sections.map Section.section_id).Nodup := by
  obtain ⟨hperm, hsec, hcov, hkeyN, hkeyM⟩ := build_inv_final t
  have hmodel : (build_context_model t).sections =
      assemble ((iter_nodes (parse_snapshot t)).foldl
        (build_step (parse_snapshot t) (ancestors_with_context (parse_snapshot t)))
        ⟨[], []⟩) := rfl
  constructor
  · rw [hmodel, assemble_actions_flat]
    have hcov' : ∀ e ∈ ((iter_nodes (parse_snapshot t)).foldl
        (build_step (parse_snapshot t) (ancestors_with_context (parse_snapshot t)))
        ⟨[], []⟩).itemMap,
        e.sid ∈ (((iter_nodes (parse_snapshot t)).foldl
          (build_step (parse_snapshot t) (ancestors_with_context (parse_snapshot t)))
          ⟨[], []⟩).sections.map SecHdr.section_id) :=
      fun e he => hcov e.sid (List.mem_map_of_mem _ he)
    have hpart := partition_perm _ _ hsec hcov'
    have hperm' : List.Perm
        ((((iter_nodes (parse_snapshot t)).foldl
          (build_step (parse_snapshot t) (ancestors_with_context (parse_snapshot t)))
          ⟨[], []⟩).itemMap.flatMap (fun e => e.actions)).map actionData)
        (((iter_nodes (parse_snapshot t)).filter qualifies).map nodeActionData) := hperm
    exact ((hpart.flatMap_right (fun e => e.actions)).map actionData).trans hperm'
  · rw [hmodel, assemble_ids]
    exact hsec

/-- C3 (amended): items are deduplicated by the pair (section id, container
node identity), not by the container alone: the number of items in the
model equals the number of distinct (section_id, container) pairs over the
qualifying nodes.  Two nodes resolving to the same container land in one
Item only when their section ids also coincide; the counterexample below
shows the same container yielding two Items in two sections. -/
theorem claim_C3_items_dedup_by_section_and_container (t : String) :
    ((build_context_model t).sections.flatMap Section.items).length =
      ((((iter_nodes (parse_snapshot t)).filter qualifies).map
        (node_key (parse_snapshot t) (ancestors_with_context (parse_snapshot t)))).dedup).length := by
  obtain ⟨hperm, hsec, hcov, hkeyN, hkeyM⟩ := build_inv_final t
  have hmodel : (build_context_model t).sections =
      assemble ((iter_nodes (parse_snapshot t)).foldl
        (build_step (parse_snapshot t) (ancestors_with_context (parse_snapshot t)))
        ⟨[], []⟩) := rfl
  rw [hmodel, assemble_items_flat, List.length_map]
  have hcov' : ∀ e ∈ ((iter_nodes (parse_snapshot t)).foldl
      (build_step (parse_snapshot t) (ancestors_with_context (parse_snapshot t)))
      ⟨[], []⟩).itemMap,
      e.sid ∈ (((iter_nodes (parse_snapshot t)).foldl
        (build_step (parse_snapshot t) (ancestors_with_context (parse_snapshot t)))
        ⟨[], []⟩).sections.map SecHdr.section_id) :=
    fun e he => hcov e.sid (List.mem_map_of_mem _ he)
  have hpart := partition_perm _ _ hsec hcov'
  rw [hpart.length_eq]
  have hfin : (((iter_nodes (parse_snapshot t)).foldl
      (build_step (parse_snapshot t) (ancestors_with_context (parse_snapshot t)))
      ⟨[], []⟩).itemMap.map (fun e => (e.sid, e.cnid))).toFinset
      = (((iter_nodes (parse_snapshot t)).filter qualifies).map
        (node_key (parse_snapshot t) (ancestors_with_context (parse_snapshot t)))).toFinset := by
    apply Finset.ext
    intro pk
    rw [List.mem_toFinset, List.mem_toFinset]
    exact hkeyM pk
  calc ((iter_nodes (parse_snapshot t)).foldl
      (build_step (parse_snapshot t) (ancestors_with_context (parse_snapshot t)))
      ⟨[], []⟩).itemMap.length
      = (((iter_nodes (parse_snapshot t)).foldl
        (build_step (parse_snapshot t) (ancestors_with_context (parse_snapshot t)))
        ⟨[], []⟩).itemMap.map (fun e => (e.sid, e.cnid))).length := (List.length_map _ _).symm
    _ = (((iter_nodes (parse_snapshot t)).foldl
        (build_step (parse_snapshot t) (ancestors_with_context (parse_snapshot t)))
        ⟨[], []⟩).itemMap.map (fun e => (e.sid, e.cnid))).dedup.length := by
        rw [List.dedup_eq_self.2 hkeyN]
    _ = (((iter_nodes (parse_snapshot t)).foldl
        (build_step (parse_snapshot t) (ancestors_with_context (parse_snapshot t)))
        ⟨[], []⟩).itemMap.map (fun e => (e.sid, e.cnid))).toFinset.card :=
        (List.card_toFinset _).symm
    _ = (((iter_nodes (parse_snapshot t)).filter qualifies).map
        (node_key (parse_snapshot t) (ancestors_with_context (parse_snapshot t)))).toFinset.card := by
        rw [hfin]
    _ = (((iter_nodes (parse_snapshot t)).filter qualifies).map
        (node_key (parse_snapshot t) (ancestors_with_context (parse_snapshot t)))).dedup.length :=
        List.card_toFinset _

/-- C3 counterexample: in exC3 both buttons resolve to the SAME container
node (the row, one distinct container identity), yet the model holds two
Items — one per section, because a heading splits the two buttons into
sections s_unknown_noheading and s_unknown_H.  One Item per container node
alone is therefore false. -/
theorem claim_C3_counterexample :
    ((build_context_model exC3).sections.flatMap Section.items).length = 2
    ∧ ((((iter_nodes (parse_snapshot exC3)).filter qualifies).map (fun n =>
        (node_container (parse_snapshot exC3)
          (ancestors_with_context (parse_snapshot exC3)) n).data.nid)).dedup).length = 1
    ∧ (build_context_model exC3).sections.map Section.section_id
        = ["s_unknown_noheading", "s_unknown_H"] :=
  ⟨rfl, by decide, rfl⟩

end SnapshotMgr

namespace SnapshotMgr

/-! ## Parse-stack invariants -/

theorem childIndentsOk_iff (p : Int) : ∀ cs : List Node,
    (childIndentsOk p cs = true) ↔ ∀ c ∈ cs, p < c.data.indent ∧ indentOk c = true := by
  intro cs
  induction cs with
  | nil => simp [childIndentsOk]
  | cons c cs ih =>
    simp only [childIndentsOk, Bool.and_eq_true, decide_eq_true_eq, ih,
      List.mem_cons, forall_eq_or_imp]

theorem sibListOk_iff : ∀ cs : List Node,
    (sibListOk cs = true) ↔ ∀ c ∈ cs, sibDescOk c = true := by
  intro cs
  induction cs with
  | nil => simp [sibListOk]
  | cons c cs ih =>
    simp only [sibListOk, Bool.and_eq_true, ih, List.mem_cons, forall_eq_or_imp]

theorem indentOk_closeFrame (f : Frame) (h : frameChildrenOk f) :
    indentOk (closeFrame f) = true := by
  show childIndentsOk f.indent f.children = true
  exact (childIndentsOk_iff _ _).mpr (fun c hc => ⟨(h.1 c hc).1, (h.1 c hc).2.1⟩)

theorem sibDescOk_closeFrame (f : Frame) (h : frameChildrenOk f) :
    sibDescOk (closeFrame f) = true := by
  show (sibChainOk f.children && sibListOk f.children) = true
  rw [Bool.and_eq_true]
  exact ⟨h.2, (sibListOk_iff _).mpr (fun c hc => (h.1 c hc).2.2)⟩

theorem sibChainOk_append : ∀ (cs : List Node) (c : Node),
    sibChainOk cs = true →
    (∀ lc, cs.getLast? = some lc → c.data.indent ≤ lc.data.indent) →
    sibChainOk (cs ++ [c]) = true := by
  intro cs
  induction cs with
  | nil => intro c _ _; rfl
  | cons a cs ih =>
    intro c h1 h2
    cases cs with
    | nil =>
      have hca := h2 a rfl
      simp [sibChainOk, hca]
    | cons b cs2 =>
      have h1' : sibChainOk (b :: cs2) = true := by
        have := h1
        simp only [sibChainOk, Bool.and_eq_true] at this
        exact this.2
      have hba : b.data.indent ≤ a.data.indent := by
        have := h1
        simp only [sibChainOk, Bool.and_eq_true, decide_eq_true_eq] at this
        exact this.1
      have h2' : ∀ lc, (b :: cs2).getLast? = some lc →
          c.data.indent ≤ lc.data.indent := by
        intro lc hlc
        exact h2 lc ((List.getLast?_cons_cons).symm ▸ hlc)
      have := ih c h1' h2'
      show sibChainOk (a :: (b :: cs2) ++ [c]) = true
      simp only [List.cons_append, sibChainOk, Bool.and_eq_true, decide_eq_true_eq]
      constructor
      · exact hba
      · simpa [List.cons_append] using this

theorem frameChildrenOk_pushChild (f : Frame) (c : Node)
    (h : frameChildrenOk f)
    (hind : f.indent < c.data.indent)
    (hok : indentOk c = true) (hsib : sibDescOk c = true)
    (hlast : ∀ lc, f.children.getLast? = some lc →
      c.data.indent ≤ lc.data.indent) :
    frameChildrenOk (pushChild f c) := by
  constructor
  · intro x hx
    rcases List.mem_append.mp hx with hx | hx
    · exact h.1 x hx
    · rcases List.mem_singleton.mp hx with rfl
      exact ⟨hind, hok, hsib⟩
  · exact sibChainOk_append _ _ h.2 hlast

theorem stackOk_frameOk : ∀ (fs : List Frame) (f : Frame), stackOk f fs → frameChildrenOk f := by
  intro fs f h
  cases fs with
  | nil => exact h.1
  | cons g gs => exact h.1

theorem stackOk_replace (f f' : Frame) (fs : List Frame)
    (h : stackOk f fs) (hok : frameChildrenOk f') (hind : f'.indent = f.indent) :
    stackOk f' fs := by
  cases fs with
  | nil => exact ⟨hok, by rw [hind]; exact h.2⟩
  | cons g gs =>
    obtain ⟨h1, h2, h3, h4⟩ := h
    exact ⟨hok, by rw [hind]; exact h2, fun lc hlc => by rw [hind]; exact h3 lc hlc, h4⟩

end SnapshotMgr

namespace SnapshotMgr

theorem popFrames_ok (i : Int) (hi : 0 ≤ i) :
    ∀ (rest : List Frame) (top : Frame),
      stackOk top rest →
      (∀ lc, top.children.getLast? = some lc → i ≤ lc.data.indent) →
      stackOk (popFrames i top rest).1 (popFrames i top rest).2
      ∧ (popFrames i top rest).1.indent < i
      ∧ (∀ lc, (popFrames i top rest).1.children.getLast? = some lc →
          i ≤ lc.data.indent) := by
  intro rest
  induction rest with
  | nil =>
    intro top h hmid
    have hind : top.indent = -1 := h.2
    refine ⟨h, ?_, hmid⟩
    show top.indent < i
    omega
  | cons f fs ih =>
    intro top h hmid
    obtain ⟨h1, h2, h3, h4⟩ := h
    by_cases hcond : i ≤ top.indent
    · have hstep : popFrames i top (f :: fs)
          = popFrames i (pushChild f (closeFrame top)) fs := by
        rw [popFrames, if_pos hcond]
      rw [hstep]
      apply ih
      · exact stackOk_replace f _ fs h4
          (frameChildrenOk_pushChild f (closeFrame top) (stackOk_frameOk fs f h4)
            h2 (indentOk_closeFrame top h1) (sibDescOk_closeFrame top h1) h3) rfl
      · intro lc hlc
        have : (pushChild f (closeFrame top)).children.getLast? = some (closeFrame top) := by
          show (f.children ++ [closeFrame top]).getLast? = _
          exact List.getLast?_concat _
        rw [this] at hlc
        cases hlc
        exact hcond
    · have hstep : popFrames i top (f :: fs) = (top, f :: fs) := by
        rw [popFrames, if_neg hcond]
      rw [hstep]
      exact ⟨⟨h1, h2, h3, h4⟩, lt_of_not_le hcond, hmid⟩

theorem matchLine_nonneg {line : List Char} {indent : Int} {body : List Char}
    (h : matchLine line = some (indent, body)) : 0 ≤ indent := by
  unfold matchLine at h
  split at h
  · split at h
    · cases h
    · cases h
      exact Int.natCast_nonneg _
  · cases h

/-- The between-lines invariant: the stack is well formed and the top frame
has no children yet (children are only attached when a frame is popped; the
top frame is always the most recently opened node, or the fresh root). -/
def parseInv (st : ParseState) : Prop :=
  stackOk st.top st.rest ∧ st.top.children = []

theorem processLine_inv (st : ParseState) (line : List Char) (h : parseInv st) :
    parseInv (processLine st line) := by
  obtain ⟨hstack, hemp⟩ := h
  cases hml : matchLine line with
  | none =>
    have hpl : processLine st line = st := by rw [processLine, hml]
    rw [hpl]
    exact ⟨hstack, hemp⟩
  | some ib =>
    obtain ⟨indent, body⟩ := ib
    have hind : 0 ≤ indent := matchLine_nonneg hml
    cases hmu : matchUrl body with
    | some u =>
      have hpl : processLine st line =
          { st with top := { st.top with url := some (String.mk u) } } := by
        simp only [processLine, hml, hmu]
      rw [hpl]
      refine ⟨stackOk_replace st.top _ st.rest hstack ?_ rfl, hemp⟩
      exact stackOk_frameOk st.rest st.top hstack
    | none =>
      cases hmt : matchText body with
      | some tx =>
        have hpl : processLine st line =
            { st with top :=
                { st.top with texts := st.top.texts ++ [String.mk tx] } } := by
          simp only [processLine, hml, hmu, hmt]
        rw [hpl]
        refine ⟨stackOk_replace st.top _ st.rest hstack ?_ rfl, hemp⟩
        exact stackOk_frameOk st.rest st.top hstack
      | none =>
        have hpl : processLine st line =
            { top := { raw := String.mk body, indent := indent,
                       role := match matchRole body with
                               | some r => String.mk r
                               | none => "unknown",
                       name := (matchName body).map String.mk,
                       ref := (searchRef body).map String.mk,
                       disabled := hasDisabledTag body, url := none, texts := [],
                       nid := st.counter, children := [] },
              rest := (popFrames indent st.top st.rest).1 ::
                (popFrames indent st.top st.rest).2,
              counter := st.counter + 1 } := by
          simp only [processLine, hml, hmu, hmt]
        rw [hpl]
        have hmid : ∀ lc, st.top.children.getLast? = some lc →
            indent ≤ lc.data.indent := by
          intro lc hlc
          rw [hemp] at hlc
          cases hlc
        have hp := popFrames_ok indent hind st.rest st.top hstack hmid
        refine ⟨?_, rfl⟩
        show stackOk _ ((popFrames indent st.top st.rest).1
          :: (popFrames indent st.top st.rest).2)
        refine ⟨⟨fun c hc => absurd hc (List.not_mem_nil c), rfl⟩, ?_, ?_, hp.1⟩
        · exact hp.2.1
        · exact hp.2.2

theorem parse_fold_inv : ∀ (lines : List (List Char)) (st : ParseState),
    parseInv st → parseInv (lines.foldl processLine st) := by
  intro lines
  induction lines with
  | nil => intro st h; exact h
  | cons line rest ih =>
    intro st h
    exact ih (processLine st line) (processLine_inv st line h)

theorem closeAll_ok : ∀ (rest : List Frame) (top : Frame), stackOk top rest →
    indentOk (closeAll top rest) = true ∧ sibDescOk (closeAll top rest) = true := by
  intro rest
  induction rest with
  | nil =>
    intro top h
    exact ⟨indentOk_closeFrame _ h.1, sibDescOk_closeFrame _ h.1⟩
  | cons f fs ih =>
    intro top h
    obtain ⟨h1, h2, h3, h4⟩ := h
    rw [closeAll]
    apply ih
    exact stackOk_replace f _ fs h4
      (frameChildrenOk_pushChild f (closeFrame top) (stackOk_frameOk fs f h4)
        h2 (indentOk_closeFrame top h1) (sibDescOk_closeFrame top h1) h3) rfl

theorem parse_root_ok (t : String) :
    indentOk (parse_snapshot t) = true ∧ sibDescOk (parse_snapshot t) = true := by
  have hinit : parseInv ⟨rootFrame, [], 1⟩ :=
    ⟨⟨⟨fun c hc => absurd hc (List.not_mem_nil c), rfl⟩, rfl⟩, rfl⟩
  have h := parse_fold_inv (pySplitlines t.data) ⟨rootFrame, [], 1⟩ hinit
  exact closeAll_ok _ _ h.1

/-- C8: for every input text, every parent/child edge of the parsed tree
has the child's indentation strictly greater than the parent's (the
synthetic root has indentation -1). -/
theorem claim_C8_child_indent_strictly_deeper (t : String) :
    indentOk (parse_snapshot t) = true :=
  (parse_root_ok t).1

/-- C9 (amended): for every input text, the children of any node of the
parsed tree have weakly DECREASING indentations left to right (each later
sibling sits at the same indentation or shallower than its predecessor) —
they do not in general share one indentation. -/
theorem claim_C9_sibling_indents_weakly_decreasing (t : String) :
    sibDescOk (parse_snapshot t) = true :=
  (parse_root_ok t).2

/-- C9 counterexample: parsing exC9 puts x (indentation 8) and y
(indentation 6) as the two children of one node a, so siblings do not all
share the same indentation. -/
theorem claim_C9_counterexample :
    sibEqOk (parse_snapshot exC9) = false
    ∧ (((parse_snapshot exC9).children.headD (parse_snapshot exC9)).children.headD
        (parse_snapshot exC9)).children.map (fun c => c.data.indent) = [8, 6] :=
  ⟨rfl, rfl⟩

end SnapshotMgr
